import Mathlib

/-!
Formal model of the maintenance-history view logic of
`src/components/HistoryModal.tsx`: the date/workshop filter
(`filteredHistory`), the comparator-based sorter with whole-sequence
reversal for the descending direction (`sortedHistory`), the sort-header
toggle (`handleSort`), the edit-quota guard on the edit button, the
clear-filters action, and the timeliness derivation (modelled from the
specification, since `utils/historyUtils` is outside the provided
sources).

Calendar dates are modelled as integers (the chronological value of the
parsed date, in whole days), matching the date-only comparison semantics
of the component.  JavaScript's stable `Array.prototype.sort` is modelled
by `List.mergeSort`, a stable merge sort; the in-place mutation of the
copied array performed by `sort` is modelled by explicit state passing in
`SortMem`.  The empty string used by the component for an absent date
bound is modelled by `none`.
-/

/-- A derived history entry (`HistoryEntryWithStatus` in `types.ts`), as
consumed by `HistoryModal`.  `status` is the literal string the component
compares against: overdue entries carry `"Quá hạn"`, on-time entries carry
`"Đúng hạn"`. -/
structure HistoryEntryWithStatus where
  id : String
  workshopId : String
  workshopName : String
  equipmentName : String
  taskName : String
  maintenanceDate : Int
  notes : String
  editCount : Nat
  status : String
  overdueDays : Int
deriving DecidableEq, Repr

/-- The filter criteria held in component state: `selectedWorkshop`
(initially `"all"`), and the optional date bounds (`none` models the empty
string, i.e. no bound). -/
structure FilterCriteria where
  selectedWorkshop : String
  startDate : Option Int
  endDate : Option Int
deriving DecidableEq, Repr

/-- The predicate applied by `processedHistory.filter` inside the
`filteredHistory` memo (HistoryModal.tsx lines 33-60): reject on workshop
mismatch, then, when at least one date bound is set, reject entries
strictly before the start bound or strictly after the end bound. -/
def keepEntry (c : FilterCriteria) (e : HistoryEntryWithStatus) : Bool :=
  let startOk : Bool :=
    match c.startDate with
    | some s => ! decide (e.maintenanceDate < s)
    | none => true
  let endOk : Bool :=
    match c.endDate with
    | some t => ! decide (t < e.maintenanceDate)
    | none => true
  if c.selectedWorkshop ≠ "all" ∧ e.workshopId ≠ c.selectedWorkshop then
    false
  else if c.startDate.isSome || c.endDate.isSome then
    startOk && endOk
  else
    true

/-- The `filteredHistory` memo (HistoryModal.tsx lines 32-61). -/
def filteredHistory (c : FilterCriteria) (l : List HistoryEntryWithStatus) :
    List HistoryEntryWithStatus :=
  l.filter (keepEntry c)

/-- The five sortable columns (`SortKey` in HistoryModal.tsx line 16). -/
inductive SortKey where
  | workshopName
  | equipmentName
  | taskName
  | maintenanceDate
  | status
deriving DecidableEq, Repr

/-- Sort direction (`SortDirection` in HistoryModal.tsx line 17). -/
inductive SortDirection where
  | asc
  | desc
deriving DecidableEq, Repr

/-- The generic string comparison of the sorter (HistoryModal.tsx lines
82-84): `-1` when smaller, `1` when greater, `0` otherwise. -/
def compareStrings (a b : String) : Int :=
  if a < b then -1 else if b < a then 1 else 0

/-- The comparator passed to `sortable.sort` (HistoryModal.tsx lines
65-85), by sort key: numeric date difference for `maintenanceDate`, the
overdue-first multi-level comparator for `status`, and string comparison
of the denormalized display names otherwise. -/
def compareEntries (k : SortKey) (a b : HistoryEntryWithStatus) : Int :=
  match k with
  | .maintenanceDate => a.maintenanceDate - b.maintenanceDate
  | .status =>
    if a.status = "Quá hạn" ∧ ¬ b.status = "Quá hạn" then -1
    else if ¬ a.status = "Quá hạn" ∧ b.status = "Quá hạn" then 1
    else if a.status = "Quá hạn" ∧ b.status = "Quá hạn" then
      b.overdueDays - a.overdueDays
    else 0
  | .workshopName => compareStrings a.workshopName b.workshopName
  | .equipmentName => compareStrings a.equipmentName b.equipmentName
  | .taskName => compareStrings a.taskName b.taskName

/-- `a` may be placed before `b` by the stable sort: the comparator does
not order `b` strictly first.  This is the ordering a stable
comparator-based sort realises. -/
def entryLe (k : SortKey) (a b : HistoryEntryWithStatus) : Bool :=
  decide (compareEntries k a b ≤ 0)

/-- The `sortedHistory` memo (HistoryModal.tsx lines 63-91): stable sort
of a copy of the filtered list with the base ascending comparator, then,
when the direction is descending, reversal of the whole sequence. -/
def sortedHistory (k : SortKey) (d : SortDirection)
    (l : List HistoryEntryWithStatus) : List HistoryEntryWithStatus :=
  let sortable := l.mergeSort (entryLe k)
  match d with
  | .asc => sortable
  | .desc => sortable.reverse

/-- The alternative the specification rules out: a stable sort whose
comparator is the sign-flipped base comparator (what a naive descending
implementation would do instead of reversing the sequence). -/
def signFlippedSort (k : SortKey) (l : List HistoryEntryWithStatus) :
    List HistoryEntryWithStatus :=
  l.mergeSort (fun a b => decide (-(compareEntries k a b) ≤ 0))

/-- The direction toggle inside `handleSort` (HistoryModal.tsx line 95). -/
def toggleDirection : SortDirection → SortDirection
  | .asc => .desc
  | .desc => .asc

/-- The component-local view state: sort criteria and filter criteria. -/
structure ViewState where
  sortKey : SortKey
  sortDirection : SortDirection
  startDate : Option Int
  endDate : Option Int
  selectedWorkshop : String
deriving DecidableEq, Repr

/-- `handleSort` (HistoryModal.tsx lines 93-100): clicking the active key
toggles the direction; clicking a new key selects it with ascending
direction. -/
def handleSort (key : SortKey) (s : ViewState) : ViewState :=
  if s.sortKey = key then
    { s with sortDirection := toggleDirection s.sortDirection }
  else
    { s with sortKey := key, sortDirection := .asc }

/-- The clear-filters button handler (HistoryModal.tsx lines 173-177):
reset the two date bounds to empty and the workshop selector to `"all"`. -/
def clearFilters (s : ViewState) : ViewState :=
  { s with startDate := none, endDate := none, selectedWorkshop := "all" }

/-- The edit affordance of the edit button (HistoryModal.tsx line 224):
the button is disabled when `entry.editCount >= 2`, so editing is enabled
exactly when that guard is false. -/
def canEdit (e : HistoryEntryWithStatus) : Bool :=
  ! decide (e.editCount ≥ 2)

/-- Modelled from the spec: the Timeliness Calculator
(`calculateHistoryTimeliness` from `utils/historyUtils`) is not among the
provided sources.  Per the specification, the due date is the maintenance
date plus the workshop interval; when the evaluation reference date is
after the due date the entry is Overdue (`"Quá hạn"`) with
`overdueDays = referenceDate - dueDate` in whole days, otherwise OnTime
(`"Đúng hạn"`) with `overdueDays = 0`.  All dates are whole-day
integers. -/
def computeTimeliness (referenceDate maintenanceDate interval : Int) :
    String × Int :=
  let dueDate := maintenanceDate + interval
  if dueDate < referenceDate then ("Quá hạn", referenceDate - dueDate)
  else ("Đúng hạn", 0)

/-- Memory state for the `sortedHistory` computation: the reference to the
filtered collection and the reference to the `sortable` working array. -/
structure SortMem where
  filtered : List HistoryEntryWithStatus
  sortable : List HistoryEntryWithStatus
deriving DecidableEq, Repr

/-- The `sortedHistory` memo with the array mutation made explicit:
`[...filteredHistory]` copies the filtered array into `sortable`,
`sortable.sort` replaces the contents of `sortable` only, and the
descending branch reverses `sortable` in place; the final memory and the
returned view are produced. -/
def sortedHistoryRun (k : SortKey) (d : SortDirection) (m : SortMem) :
    SortMem × List HistoryEntryWithStatus :=
  let m1 : SortMem := { m with sortable := m.filtered }
  let m2 : SortMem := { m1 with sortable := m1.sortable.mergeSort (entryLe k) }
  let m3 : SortMem :=
    match d with
    | .asc => m2
    | .desc => { m2 with sortable := m2.sortable.reverse }
  (m3, m3.sortable)

/-- Characterisation of the filter predicate: an entry is kept iff the
workshop matches (or the selector is `"all"`), every present start bound
is at most the maintenance date, and every present end bound is at least
the maintenance date. -/
theorem keepEntry_eq_true_iff (c : FilterCriteria) (e : HistoryEntryWithStatus) :
    keepEntry c e = true ↔
      ((c.selectedWorkshop = "all" ∨ e.workshopId = c.selectedWorkshop) ∧
       (∀ s, c.startDate = some s → s ≤ e.maintenanceDate) ∧
       (∀ t, c.endDate = some t → e.maintenanceDate ≤ t)) := by
  unfold keepEntry
  rcases hs : c.startDate with _ | s <;> rcases ht : c.endDate with _ | t <;>
    by_cases hw : c.selectedWorkshop ≠ "all" ∧ e.workshopId ≠ c.selectedWorkshop <;>
    simp [hs, ht, hw] <;> tauto

/-- The stable ordering realised by the status comparator: `a` may stay
before `b` iff whenever `b` is overdue, `a` is overdue with at least as
many overdue days. -/
theorem entryLe_status_iff (a b : HistoryEntryWithStatus) :
    entryLe .status a b = true ↔
      (b.status = "Quá hạn" →
        a.status = "Quá hạn" ∧ b.overdueDays ≤ a.overdueDays) := by
  unfold entryLe compareEntries
  by_cases ha : a.status = "Quá hạn" <;> by_cases hb : b.status = "Quá hạn" <;>
    simp [ha, hb]

/-- Transitivity of the status ordering. -/
theorem entryLe_status_trans (a b c : HistoryEntryWithStatus)
    (hab : entryLe .status a b = true) (hbc : entryLe .status b c = true) :
    entryLe .status a c = true := by
  rw [entryLe_status_iff] at *
  intro hc
  obtain ⟨hbo, hcb⟩ := hbc hc
  obtain ⟨hao, hba⟩ := hab hbo
  exact ⟨hao, le_trans hcb hba⟩

/-- Totality of the status ordering. -/
theorem entryLe_status_total (a b : HistoryEntryWithStatus) :
    (entryLe .status a b || entryLe .status b a) = true := by
  simp only [Bool.or_eq_true, entryLe_status_iff]
  by_cases ha : a.status = "Quá hạn" <;> by_cases hb : b.status = "Quá hạn" <;>
    simp [ha, hb] <;> omega

/-- Concrete fixture: an on-time entry. -/
def entryA : HistoryEntryWithStatus :=
  { id := "h1", workshopId := "w1", workshopName := "Xưởng 1",
    equipmentName := "Máy nén khí", taskName := "Tra dầu",
    maintenanceDate := 10, notes := "", editCount := 0,
    status := "Đúng hạn", overdueDays := 0 }

/-- Concrete fixture: a second on-time entry (comparator tie with
`entryA` under the status key), with an exhausted edit quota. -/
def entryB : HistoryEntryWithStatus :=
  { id := "h2", workshopId := "w2", workshopName := "Xưởng 2",
    equipmentName := "Băng tải", taskName := "Kiểm tra",
    maintenanceDate := 12, notes := "", editCount := 2,
    status := "Đúng hạn", overdueDays := 0 }

/-- C10: the clear-filters action resets exactly the three filter
criteria — start date to empty, end date to empty, workshop selector to
`"all"` — and leaves the sort key and sort direction unchanged. -/
theorem clearFilters_resets_filters_and_keeps_sort (s : ViewState) :
    (clearFilters s).startDate = none ∧
    (clearFilters s).endDate = none ∧
    (clearFilters s).selectedWorkshop = "all" ∧
    (clearFilters s).sortKey = s.sortKey ∧
    (clearFilters s).sortDirection = s.sortDirection :=
  ⟨rfl, rfl, rfl, rfl, rfl⟩

/-- C9: filtering and sorting never mutate their inputs: the sorter works
on a copy, leaving the filtered collection unchanged, and returns a new
sequence holding exactly the filtered entries (a permutation); the filter
returns a subsequence of its input, the input itself untouched. -/
theorem filter_sort_no_mutation (k : SortKey) (d : SortDirection) (m : SortMem)
    (c : FilterCriteria) (l : List HistoryEntryWithStatus) :
    ((sortedHistoryRun k d m).1.filtered = m.filtered) ∧
    ((sortedHistoryRun k d m).2.Perm m.filtered) ∧
    (filteredHistory c l).Sublist l := by
  refine ⟨?_, ?_, List.filter_sublist l⟩
  · cases d <;> rfl
  · cases d
    · exact List.mergeSort_perm _ _
    · exact (List.reverse_perm _).trans (List.mergeSort_perm _ _)

/-- C6: the edit affordance is granted iff the record's edit count is
below the lifetime quota of 2; once the count reaches 2 the edit action
is rejected (the button guard disables it). -/
theorem canEdit_iff_editCount_lt_two (e : HistoryEntryWithStatus) :
    (canEdit e = true ↔ e.editCount < 2) ∧
    (2 ≤ e.editCount → canEdit e = false) := by
  constructor
  · simp [canEdit]
  · intro h
    simp [canEdit, h]

/-- Witness for C6 at a concrete record with exhausted quota. -/
theorem canEdit_iff_editCount_lt_two_witness : canEdit entryB = false :=
  (canEdit_iff_editCount_lt_two entryB).2 (by decide)

/-- C5: for the derived timeliness, `overdueDays > 0` iff the status is
Overdue: past the due date (maintenance date + interval) the entry is
Overdue with the whole-day difference (at least 1); otherwise — including
exactly on the due date — it is OnTime with 0. -/
theorem timeliness_overdue_invariant (ref m i : Int) :
    ((computeTimeliness ref m i).2 > 0 ↔
      (computeTimeliness ref m i).1 = "Quá hạn") ∧
    (m + i < ref →
      (computeTimeliness ref m i).1 = "Quá hạn" ∧
      (computeTimeliness ref m i).2 = ref - (m + i) ∧
      1 ≤ (computeTimeliness ref m i).2) ∧
    (ref ≤ m + i →
      (computeTimeliness ref m i).1 = "Đúng hạn" ∧
      (computeTimeliness ref m i).2 = 0) := by
  by_cases h : m + i < ref <;> simp [computeTimeliness, h] <;> omega

/-- Witness for C5: the specification's example scenario — interval 30
days, maintenance at day 0, evaluated at day 35 — is Overdue by 5 days. -/
theorem timeliness_overdue_invariant_witness :
    (computeTimeliness 35 0 30).1 = "Quá hạn" ∧
    (computeTimeliness 35 0 30).2 = 35 - (0 + 30) ∧
    1 ≤ (computeTimeliness 35 0 30).2 :=
  (timeliness_overdue_invariant 35 0 30).2.1 (by decide)

/-- C8: toggling the sort direction twice round-trips: the toggle is an
involution, the displayed view after two toggles equals the view before,
reversing the ascending sequence twice restores it, and clicking the
active sort header twice restores the full view state. -/
theorem sortToggle_round_trip (l : List HistoryEntryWithStatus) (k : SortKey)
    (d : SortDirection) (s : ViewState) :
    toggleDirection (toggleDirection d) = d ∧
    sortedHistory k (toggleDirection (toggleDirection d)) l =
      sortedHistory k d l ∧
    (sortedHistory k SortDirection.asc l).reverse.reverse =
      sortedHistory k SortDirection.asc l ∧
    (s.sortKey = k → handleSort k (handleSort k s) = s) := by
  refine ⟨?_, ?_, List.reverse_reverse _, ?_⟩
  · cases d <;> rfl
  · cases d <;> rfl
  · intro h
    obtain ⟨sk, sd, a, b, w⟩ := s
    simp only at h
    subst h
    cases sd <;> simp [handleSort, toggleDirection]

/-- Witness for C8: two clicks on the active status header restore the
initial view state. -/
theorem sortToggle_round_trip_witness :
    handleSort SortKey.status
        (handleSort SortKey.status
          ⟨SortKey.status, SortDirection.asc, none, none, "all"⟩) =
      ⟨SortKey.status, SortDirection.asc, none, none, "all"⟩ :=
  (sortToggle_round_trip [] SortKey.status SortDirection.asc
    ⟨SortKey.status, SortDirection.asc, none, none, "all"⟩).2.2.2 rfl

/-- C1: sorting by the status key ascending places every Overdue entry
before every OnTime entry and, among Overdue entries, greater
`overdueDays` first; the comparator reports equal exactly on two OnTime
entries or two Overdue entries with equal `overdueDays`, and such tied
entries keep their prior relative order (stability). -/
theorem statusSort_overdue_first (l : List HistoryEntryWithStatus) :
    List.Pairwise
      (fun a b => b.status = "Quá hạn" →
        a.status = "Quá hạn" ∧ b.overdueDays ≤ a.overdueDays)
      (sortedHistory .status .asc l) ∧
    (∀ a b : HistoryEntryWithStatus,
      compareEntries .status a b = 0 ↔
        ((a.status = "Quá hạn" ↔ b.status = "Quá hạn") ∧
         (a.status = "Quá hạn" → a.overdueDays = b.overdueDays))) ∧
    (∀ a b : HistoryEntryWithStatus, compareEntries .status a b = 0 →
      [a, b].Sublist l → [a, b].Sublist (sortedHistory .status .asc l)) := by
  refine ⟨?_, ?_, ?_⟩
  · exact (List.sorted_mergeSort entryLe_status_trans entryLe_status_total
      l).imp (fun {a b} h => (entryLe_status_iff a b).mp h)
  · intro a b
    simp only [compareEntries]
    by_cases ha : a.status = "Quá hạn" <;> by_cases hb : b.status = "Quá hạn" <;>
      simp [ha, hb] <;> omega
  · intro a b h0 hsub
    have hle : entryLe .status a b = true := by
      unfold entryLe
      rw [h0]
      decide
    have hpair : List.Pairwise (fun x y => entryLe .status x y = true) [a, b] := by
      simp [hle]
    exact List.sublist_mergeSort entryLe_status_trans entryLe_status_total
      hpair hsub

/-- Witness for C1 at two concrete tied on-time entries: the comparator
reports them equal and they keep their relative order in the sorted
output. -/
theorem statusSort_overdue_first_witness :
    [entryA, entryB].Sublist (sortedHistory .status .asc [entryA, entryB]) :=
  (statusSort_overdue_first [entryA, entryB]).2.2 entryA entryB (by decide)
    (List.Sublist.refl _)

/-- C2: for every list and sort key, the descending view is the
element-wise reversal of the ascending view; and on a fixture with tied
entries this differs from sorting with the sign-flipped comparator. -/
theorem descSort_is_sequence_reversal :
    (∀ (l : List HistoryEntryWithStatus) (k : SortKey),
      sortedHistory k .desc l = (sortedHistory k .asc l).reverse) ∧
    sortedHistory .status .desc [entryA, entryB] ≠
      signFlippedSort .status [entryA, entryB] := by
  constructor
  · intro l k
    rfl
  · have h1 : sortedHistory .status .desc [entryA, entryB] = [entryB, entryA] := by
      simp [sortedHistory, List.mergeSort, entryLe, compareEntries, entryA, entryB]
    have h2 : signFlippedSort .status [entryA, entryB] = [entryA, entryB] := by
      simp [signFlippedSort, List.mergeSort, compareEntries, entryA, entryB]
    rw [h1, h2]
    decide

/-- C3: the date-range filter is inclusive at both boundaries: an entry is
kept iff its workshop passes and its maintenance date is at least every
present start bound and at most every present end bound; in particular an
entry dated exactly on a present bound passes that bound's check. -/
theorem dateFilter_inclusive_bounds (c : FilterCriteria)
    (e : HistoryEntryWithStatus) :
    (keepEntry c e = true ↔
      ((c.selectedWorkshop = "all" ∨ e.workshopId = c.selectedWorkshop) ∧
       (∀ s, c.startDate = some s → s ≤ e.maintenanceDate) ∧
       (∀ t, c.endDate = some t → e.maintenanceDate ≤ t))) ∧
    (c.startDate = some e.maintenanceDate →
      (keepEntry c e = true ↔
        ((c.selectedWorkshop = "all" ∨ e.workshopId = c.selectedWorkshop) ∧
         (∀ t, c.endDate = some t → e.maintenanceDate ≤ t)))) ∧
    (c.endDate = some e.maintenanceDate →
      (keepEntry c e = true ↔
        ((c.selectedWorkshop = "all" ∨ e.workshopId = c.selectedWorkshop) ∧
         (∀ s, c.startDate = some s → s ≤ e.maintenanceDate)))) := by
  refine ⟨keepEntry_eq_true_iff c e, fun hb => ?_, fun hb => ?_⟩
  · rw [keepEntry_eq_true_iff]
    constructor
    · rintro ⟨h1, _, h3⟩
      exact ⟨h1, h3⟩
    · rintro ⟨h1, h3⟩
      refine ⟨h1, ?_, h3⟩
      intro s hs
      rw [hb] at hs
      simp at hs
      omega
  · rw [keepEntry_eq_true_iff]
    constructor
    · rintro ⟨h1, h2, _⟩
      exact ⟨h1, h2⟩
    · rintro ⟨h1, h2⟩
      refine ⟨h1, h2, ?_⟩
      intro t ht
      rw [hb] at ht
      simp at ht
      omega

/-- Witness for C3: an entry dated exactly on both bounds is retained. -/
theorem dateFilter_inclusive_bounds_witness :
    keepEntry ⟨"all", some 10, some 10⟩ entryA = true :=
  ((dateFilter_inclusive_bounds ⟨"all", some 10, some 10⟩ entryA).2.1 rfl).mpr
    ⟨Or.inl rfl, fun t ht => by simp [entryA] at ht ⊢ <;> omega⟩

/-- C4: the workshop filter keeps an entry iff the selector is `"all"` or
the entry's workshop id equals it; with `"all"` and no date bounds the
filter returns the input unchanged, and a selector matching no entry
yields the empty sequence. -/
theorem workshopFilter_semantics (c : FilterCriteria)
    (e : HistoryEntryWithStatus) (l : List HistoryEntryWithStatus)
    (w : String) :
    (c.startDate = none → c.endDate = none →
      (keepEntry c e = true ↔
        (c.selectedWorkshop = "all" ∨ e.workshopId = c.selectedWorkshop))) ∧
    (filteredHistory ⟨"all", none, none⟩ l = l) ∧
    ((∀ x ∈ l, x.workshopId ≠ w) → w ≠ "all" →
      filteredHistory ⟨w, none, none⟩ l = []) := by
  refine ⟨fun h1 h2 => ?_, ?_, fun hnone hw => ?_⟩
  · rw [keepEntry_eq_true_iff]
    simp [h1, h2]
  · rw [filteredHistory, List.filter_eq_self]
    intro a _
    rw [keepEntry_eq_true_iff]
    simp
  · rw [filteredHistory, List.filter_eq_nil_iff]
    intro a ha
    rw [keepEntry_eq_true_iff]
    rintro ⟨h1, -, -⟩
    rcases h1 with h | h
    · exact hw h
    · exact hnone a ha h

/-- Witness for C4: a selector matching none of two concrete entries
yields the empty sequence. -/
theorem workshopFilter_semantics_witness :
    filteredHistory ⟨"w9", none, none⟩ [entryA, entryB] = [] :=
  (workshopFilter_semantics ⟨"w9", none, none⟩ entryA [entryA, entryB]
    "w9").2.2 (by decide) (by decide)

/-- C7: when both bounds are present and the start date is strictly after
the end date, the filter yields the empty sequence (permissively; the
filter is a total function). -/
theorem invertedBounds_empty (c : FilterCriteria)
    (l : List HistoryEntryWithStatus) (s t : Int)
    (hs : c.startDate = some s) (ht : c.endDate = some t) (hlt : t < s) :
    filteredHistory c l = [] := by
  rw [filteredHistory, List.filter_eq_nil_iff]
  intro a _
  rw [keepEntry_eq_true_iff]
  rintro ⟨-, h2, h3⟩
  have hs2 := h2 s hs
  have ht2 := h3 t ht
  omega

/-- Witness for C7: start 20 after end 3 empties the view. -/
theorem invertedBounds_empty_witness :
    filteredHistory ⟨"all", some 20, some 3⟩ [entryA] = [] :=
  invertedBounds_empty ⟨"all", some 20, some 3⟩ [entryA] 20 3 rfl rfl
    (by decide)
